import Mathlib

set_option maxRecDepth 100000

/-!
Verification of the monorepo scaffolder (`generate-monorepo.py`).

The script holds a fixed directory list `DIRS` and a file table `FILES`
(relative path to literal text), resolves a repo root, creates the
directories, writes each file unless it already exists (or `--force` is
given), and finally writes a root `package.json` under the same
overwrite-or-skip policy.

The filesystem is modelled as a partial map from relative paths (lists of
components) to entries (a regular file with its text content, or a
directory).  The root itself is the empty path and is always a directory.
Filesystem operations mirror Python `pathlib` semantics:

* `mkdir -p` (`Path.mkdir` with `parents=True, exist_ok=True`) creates
  every missing prefix as a directory, is a no-op on an existing
  directory, and raises if a regular file occupies the path or one of its
  ancestors;
* `Path.write_text` creates or truncates a regular file, and raises if a
  directory occupies the path (IsADirectoryError) or the parent is not a
  directory.

Fallible operations return `Except Unit`; an uncaught Python exception is
the `Except.error ()` case.  Console output is modelled as a list of
`Report` values (one per directory created, one per file written or
skipped), since only the written/skipped distinction is specified.
-/

namespace Monorepo

/-- A filesystem entry: a regular file with its text content, or a directory. -/
inductive Entry where
  | file (content : String)
  | dir
deriving DecidableEq

/-- A path relative to the repo root, as a list of components; `[]` is the root. -/
abbrev Pathc := List String

/-- Filesystem state: a partial map from (nonempty) relative paths to entries. -/
abbrev FS := Pathc → Option Entry

/-- The empty filesystem (a bare root directory). -/
def emptyFS : FS := fun _ => none

/-- Point update of a filesystem map. -/
def updateFS (fs : FS) (p : Pathc) (e : Entry) : FS :=
  fun q => if q = p then some e else fs q

/-- Does `p` denote a directory in `fs`?  The root `[]` always does. -/
def isDirB (fs : FS) (p : Pathc) : Bool :=
  p.isEmpty || decide (fs p = some Entry.dir)

/-- One console line: a directory creation, a file skip, or a file write. -/
inductive Report where
  | mkdirLine (p : Pathc)
  | skip (p : Pathc)
  | write (p : Pathc)
deriving DecidableEq

/-- The nonempty prefixes of a path, shortest first
(`pathAncestors ["a","b"] = [["a"], ["a","b"]]`). -/
def pathAncestors : Pathc → List Pathc
  | [] => []
  | c :: rest => [c] :: (pathAncestors rest).map (fun q => c :: q)

/-- `DIRS` of the script: directories to create relative to repo root. -/
def DIRS : List Pathc :=
  [ ["apps"],
    ["apps", "web"],
    ["apps", "web", "src"],
    ["apps", "api"],
    ["apps", "api", "src"],
    ["apps", "orchestrator"],
    ["apps", "orchestrator", "src"],
    ["packages"],
    ["packages", "schema"],
    ["packages", "schema", "src"],
    ["packages", "schema", "test"],
    ["packages", "core"],
    ["packages", "core", "src"],
    ["packages", "core", "test"],
    ["packages", "content-model"],
    ["packages", "content-model", "src"],
    ["packages", "content-model", "test"],
    ["packages", "design-system"],
    ["packages", "design-system", "src"],
    ["packages", "design-system", "test"],
    ["infra"],
    ["infra", "terraform"],
    ["infra", "k8s"],
    ["docs"],
    ["docs", "specs"],
    [".github"],
    [".github", "workflows"],
    ["scripts"] ]

/-- Literal content of `.gitignore` in the file table. -/
def gitignoreContent : String :=
  "__pycache__/\n"
  ++ ".pytest_cache/\n"
  ++ ".DS_Store\n"
  ++ "node_modules/\n"
  ++ "dist/\n"
  ++ "build/\n"
  ++ ".next/\n"
  ++ ".env\n"
  ++ ".env.local\n"
  ++ ".venv/\n"
  ++ "*.log\n"
  ++ ".turbo/\n"
  ++ "coverage/\n"
  ++ ".vitest/\n"

/-- Literal content of `apps/README.md` in the file table. -/
def appsReadmeContent : String :=
  "# Apps\n"
  ++ "\n"
  ++ "This folder contains runnable applications (frontends, backends, workers).\n"
  ++ "- `web/`          ‚Äì Interactive CV UI (Next.js 15)\n"
  ++ "- `api/`          ‚Äì Backend API / orchestration (Fastify)\n"
  ++ "- `orchestrator/` ‚Äì Multi-agent workflow coordination\n"

/-- Literal content of `apps/web/README.md` in the file table. -/
def webReadmeContent : String :=
  "# Web App (Interactive CV)\n"
  ++ "\n"
  ++ "Frontend application for the interactive CV/r√©sum√©.\n"
  ++ "- Tech: Next.js 15, React Server Components, TypeScript\n"
  ++ "- Entry: `src/app/page.tsx`\n"
  ++ "\n"
  ++ "## Development\n"
  ++ "\n"
  ++ "```bash\n"
  ++ "pnpm dev\n"
  ++ "```\n"

/-- Literal content of `apps/web/package.json` in the file table. -/
def webPackageJsonContent : String :=
  "\x7b\n"
  ++ "  \"name\": \"@in-midst-my-life/web\",\n"
  ++ "  \"version\": \"0.1.0\",\n"
  ++ "  \"private\": true,\n"
  ++ "  \"scripts\": \x7b\n"
  ++ "    \"dev\": \"next dev\",\n"
  ++ "    \"build\": \"next build\",\n"
  ++ "    \"start\": \"next start\",\n"
  ++ "    \"lint\": \"next lint\",\n"
  ++ "    \"typecheck\": \"tsc --noEmit\"\n"
  ++ "  \x7d,\n"
  ++ "  \"dependencies\": \x7b\n"
  ++ "    \"next\": \"15.1.0\",\n"
  ++ "    \"react\": \"^19.0.0\",\n"
  ++ "    \"react-dom\": \"^19.0.0\",\n"
  ++ "    \"@in-midst-my-life/schema\": \"workspace:*\"\n"
  ++ "  \x7d,\n"
  ++ "  \"devDependencies\": \x7b\n"
  ++ "    \"@types/node\": \"^20\",\n"
  ++ "    \"@types/react\": \"^19\",\n"
  ++ "    \"@types/react-dom\": \"^19\",\n"
  ++ "    \"typescript\": \"^5.3.3\"\n"
  ++ "  \x7d\n"
  ++ "\x7d\n"

/-- Literal content of `apps/api/README.md` in the file table. -/
def apiReadmeContent : String :=
  "# API Service\n"
  ++ "\n"
  ++ "Backend service powering the interactive CV/r√©sum√©.\n"
  ++ "- Tech: Fastify, TypeScript\n"
  ++ "- Entrypoint: `src/index.ts`\n"
  ++ "- Responsibilities: APIs, data orchestration, VC verification\n"

/-- Literal content of `apps/api/package.json` in the file table. -/
def apiPackageJsonContent : String :=
  "\x7b\n"
  ++ "  \"name\": \"@in-midst-my-life/api\",\n"
  ++ "  \"version\": \"0.1.0\",\n"
  ++ "  \"private\": true,\n"
  ++ "  \"scripts\": \x7b\n"
  ++ "    \"dev\": \"tsx watch src/index.ts\",\n"
  ++ "    \"build\": \"tsc\",\n"
  ++ "    \"start\": \"node dist/index.js\",\n"
  ++ "    \"typecheck\": \"tsc --noEmit\"\n"
  ++ "  \x7d,\n"
  ++ "  \"dependencies\": \x7b\n"
  ++ "    \"fastify\": \"^4.25.0\",\n"
  ++ "    \"@fastify/cors\": \"^8.4.2\",\n"
  ++ "    \"@in-midst-my-life/schema\": \"workspace:*\",\n"
  ++ "    \"@in-midst-my-life/core\": \"workspace:*\"\n"
  ++ "  \x7d,\n"
  ++ "  \"devDependencies\": \x7b\n"
  ++ "    \"@types/node\": \"^20\",\n"
  ++ "    \"tsx\": \"^4.7.0\",\n"
  ++ "    \"typescript\": \"^5.3.3\"\n"
  ++ "  \x7d\n"
  ++ "\x7d\n"

/-- Literal content of `apps/api/src/index.ts` in the file table. -/
def apiIndexTsContent : String :=
  "import Fastify from \x27fastify\x27;\n"
  ++ "import cors from \x27@fastify/cors\x27;\n"
  ++ "\n"
  ++ "const fastify = Fastify(\x7b\n"
  ++ "  logger: true\n"
  ++ "\x7d);\n"
  ++ "\n"
  ++ "fastify.register(cors);\n"
  ++ "\n"
  ++ "fastify.get(\x27/health\x27, async () => \x7b\n"
  ++ "  return \x7b status: \x27ok\x27 \x7d;\n"
  ++ "\x7d);\n"
  ++ "\n"
  ++ "const start = async () => \x7b\n"
  ++ "  try \x7b\n"
  ++ "    await fastify.listen(\x7b port: 3001, host: \x27"
  ++ "0.0.0.0\x27 \x7d);\n"
  ++ "  \x7d catch (err) \x7b\n"
  ++ "    fastify.log.error(err);\n"
  ++ "    process.exit(1);\n"
  ++ "  \x7d\n"
  ++ "\x7d;\n"
  ++ "\n"
  ++ "start();\n"

/-- Literal content of `apps/orchestrator/README.md` in the file table. -/
def orchestratorReadmeContent : String :=
  "# Orchestrator Service\n"
  ++ "\n"
  ++ "Multi-agent workflow coordination system.\n"
  ++ "- Tech: TypeScript, Node\n"
  ++ "- Agents: Architect, Implementer, Reviewer, Tester, Maintainer\n"
  ++ "- Integration: GitHub webhooks and CI\n"
  ++ "\n"
  ++ "See WORK-005-autonomous-code-growth.md for complete specification.\n"

/-- Literal content of `packages/README.md` in the file table. -/
def packagesReadmeContent : String :=
  "# Shared Packages\n"
  ++ "\n"
  ++ "Reusable libraries shared across apps:\n"
  ++ "- `schema/`        ‚Äì Canonical data model (Zod schemas, TypeScript types)\n"
  ++ "- `core/`          ‚Äì Domain logic and shared utilities\n"
  ++ "- `content-model/` ‚Äì Narrative generation and mask transformation\n"
  ++ "- `agents/`        ‚Äì AI agent definitions and coordination\n"

/-- Literal content of `packages/schema/README.md` in the file table. -/
def schemaReadmeContent : String :=
  "# @in-midst-my-life/schema\n"
  ++ "\n"
  ++ "Core data schemas for the interactive CV system.\n"
  ++ "\n"
  ++ "## Usage\n"
  ++ "\n"
  ++ "```typescript\n"
  ++ "import \x7b ProfileSchema, MaskSchema \x7d from \x27@in-midst-my-life/schema\x27;\n"
  ++ "\n"
  ++ "const profile = ProfileSchema.parse(profileData);\n"
  ++ "```\n"
  ++ "\n"
  ++ "See SPEC-001-data-schema.md for complete specification.\n"

/-- Literal content of `packages/schema/package.json` in the file table. -/
def schemaPackageJsonContent : String :=
  "\x7b\n"
  ++ "  \"name\": \"@in-midst-my-life/schema\",\n"
  ++ "  \"version\": \"0.1.0\",\n"
  ++ "  \"main\": \"./src/index.ts\",\n"
  ++ "  \"types\": \"./src/index.ts\",\n"
  ++ "  \"scripts\": \x7b\n"
  ++ "    \"test\": \"vitest run\",\n"
  ++ "    \"test:watch\": \"vitest\",\n"
  ++ "    \"typecheck\": \"tsc --noEmit\"\n"
  ++ "  \x7d,\n"
  ++ "  \"dependencies\": \x7b\n"
  ++ "    \"zod\": \"^3.22.4\"\n"
  ++ "  \x7d,\n"
  ++ "  \"devDependencies\": \x7b\n"
  ++ "    \"typescript\": \"^5.3.3\",\n"
  ++ "    \"vitest\": \"^1.1.0\"\n"
  ++ "  \x7d\n"
  ++ "\x7d\n"

/-- Literal content of `packages/schema/src/index.ts` in the file table. -/
def schemaIndexTsContent : String :=
  "// Core schema exports\n"
  ++ "export * from \x27./identity\x27;\n"
  ++ "export * from \x27./profile\x27;\n"
  ++ "export * from \x27./mask\x27;\n"
  ++ "\n"
  ++ "// Re-export zod for convenience\n"
  ++ "export \x7b z \x7d from \x27zod\x27;\n"

/-- Literal content of `packages/core/README.md` in the file table. -/
def coreReadmeContent : String :=
  "# Core Package\n"
  ++ "\n"
  ++ "Holds core domain logic, entities, and services for the interactive CV.\n"

/-- Literal content of `packages/core/package.json` in the file table. -/
def corePackageJsonContent : String :=
  "\x7b\n"
  ++ "  \"name\": \"@in-midst-my-life/core\",\n"
  ++ "  \"version\": \"0.1.0\",\n"
  ++ "  \"main\": \"./src/index.ts\",\n"
  ++ "  \"types\": \"./src/index.ts\",\n"
  ++ "  \"scripts\": \x7b\n"
  ++ "    \"test\": \"vitest run\",\n"
  ++ "    \"test:watch\": \"vitest\",\n"
  ++ "    \"typecheck\": \"tsc --noEmit\"\n"
  ++ "  \x7d,\n"
  ++ "  \"dependencies\": \x7b\n"
  ++ "    \"@in-midst-my-life/schema\": \"workspace:*\"\n"
  ++ "  \x7d,\n"
  ++ "  \"devDependencies\": \x7b\n"
  ++ "    \"typescript\": \"^5.3.3\",\n"
  ++ "    \"vitest\": \"^1.1.0\"\n"
  ++ "  \x7d\n"
  ++ "\x7d\n"

/-- Literal content of `packages/content-model/README.md` in the file table. -/
def contentModelReadmeContent : String :=
  "# Content Model Package\n"
  ++ "\n"
  ++ "Narrative generation and mask transformation logic.\n"
  ++ "\n"
  ++ "Responsibilities:\n"
  ++ "- Map schema entities to narrative blocks\n"
  ++ "- Handle mask/stage/epoch selection\n"
  ++ "- Generate context-specific presentations\n"

/-- Literal content of `infra/README.md` in the file table. -/
def infraReadmeContent : String :=
  "# Infrastructure\n"
  ++ "\n"
  ++ "Infrastructure-as-code and deployment configuration:\n"
  ++ "- `terraform/` ‚Äì Cloud resources\n"
  ++ "- `k8s/`       ‚Äì Kubernetes manifests\n"

/-- Literal content of `infra/terraform/main.tf` in the file table. -/
def mainTfContent : String :=
  "# Terraform root module placeholder for interactive CV infrastructure.\n"
  ++ "\n"
  ++ "terraform \x7b\n"
  ++ "  required_version = \">= 1.0.0\"\n"
  ++ "\x7d\n"
  ++ "\n"
  ++ "# TODO: Configure providers as needed\n"

/-- Literal content of `docs/README.md` in the file table. -/
def docsReadmeContent : String :=
  "# Documentation\n"
  ++ "\n"
  ++ "High-level documentation for the interactive CV system.\n"
  ++ "\n"
  ++ "See the parent directory for design documents organized as:\n"
  ++ "- FOUND-* (Foundational concepts)\n"
  ++ "- SPEC-* (Specifications)\n"
  ++ "- ARCH-* (Architecture)\n"
  ++ "- PLAN-* (Planning)\n"
  ++ "- WORK-* (Workflows)\n"
  ++ "- ORCH-* (Orchestration)\n"
  ++ "- META-* (Meta-organization)\n"

/-- Literal content of `.github/README.md` in the file table. -/
def githubReadmeContent : String :=
  "# GitHub Configuration\n"
  ++ "\n"
  ++ "GitHub-specific configuration, including Actions workflows.\n"
  ++ "\n"
  ++ "See ARCH-003-cicd-pipeline.md for CI/CD specifications.\n"

/-- Literal content of `scripts/README.md` in the file table. -/
def scriptsReadmeContent : String :=
  "# Scripts\n"
  ++ "\n"
  ++ "Utility and automation scripts for this monorepo.\n"
  ++ "- `generate-monorepo.py` ‚Äì Scaffolds the directory tree and placeholders\n"

/-- `FILES` of the script: path to literal content, in insertion order. -/
def FILES : List (Pathc × String) :=
  [ ([".gitignore"], gitignoreContent),
    (["apps", "README.md"], appsReadmeContent),
    (["apps", "web", "README.md"], webReadmeContent),
    (["apps", "web", "package.json"], webPackageJsonContent),
    (["apps", "api", "README.md"], apiReadmeContent),
    (["apps", "api", "package.json"], apiPackageJsonContent),
    (["apps", "api", "src", "index.ts"], apiIndexTsContent),
    (["apps", "orchestrator", "README.md"], orchestratorReadmeContent),
    (["packages", "README.md"], packagesReadmeContent),
    (["packages", "schema", "README.md"], schemaReadmeContent),
    (["packages", "schema", "package.json"], schemaPackageJsonContent),
    (["packages", "schema", "src", "index.ts"], schemaIndexTsContent),
    (["packages", "core", "README.md"], coreReadmeContent),
    (["packages", "core", "package.json"], corePackageJsonContent),
    (["packages", "content-model", "README.md"], contentModelReadmeContent),
    (["infra", "README.md"], infraReadmeContent),
    (["infra", "terraform", "main.tf"], mainTfContent),
    (["docs", "README.md"], docsReadmeContent),
    ([".github", "README.md"], githubReadmeContent),
    (["scripts", "README.md"], scriptsReadmeContent) ]

/-- Literal content the script writes to the root `package.json`. -/
def rootPackageJsonContent : String :=
  "\x7b\n"
  ++ "  \"name\": \"in-midst-my-life\",\n"
  ++ "  \"version\": \"0.1.0\",\n"
  ++ "  \"private\": true,\n"
  ++ "  \"workspaces\": [\n"
  ++ "    \"apps/*\",\n"
  ++ "    \"packages/*\"\n"
  ++ "  ],\n"
  ++ "  \"scripts\": \x7b\n"
  ++ "    \"dev\": \"turbo run dev\",\n"
  ++ "    \"build\": \"turbo run build\",\n"
  ++ "    \"test\": \"turbo run test\",\n"
  ++ "    \"lint\": \"turbo run lint\",\n"
  ++ "    \"typecheck\": \"turbo run typecheck\"\n"
  ++ "  \x7d,\n"
  ++ "  \"devDependencies\": \x7b\n"
  ++ "    \"turbo\": \"^1.11.0\",\n"
  ++ "    \"typescript\": \"^5.3.3\",\n"
  ++ "    \"prettier\": \"^3.1.1\",\n"
  ++ "    \"eslint\": \"^8.56.0\"\n"
  ++ "  \x7d\n"
  ++ "\x7d\n"

/-- The well-known path of the root manifest. -/
def rootPkgPath : Pathc := ["package.json"]

/-- One `mkdir` step (with `exist_ok=True`): no-op on an existing directory,
error on an existing regular file, otherwise create the directory. -/
def mkdirStep (fs : FS) (q : Pathc) : Except Unit FS :=
  match fs q with
  | some (Entry.file _) => Except.error ()
  | some Entry.dir => Except.ok fs
  | none => Except.ok (updateFS fs q Entry.dir)

/-- Run `mkdirStep` on each path of a list in order, stopping at the first error. -/
def mkdirList : List Pathc → FS → Except Unit FS
  | [], fs => Except.ok fs
  | q :: rest, fs =>
    match mkdirStep fs q with
    | Except.error e => Except.error e
    | Except.ok fs1 => mkdirList rest fs1

/-- `path.mkdir(parents=True, exist_ok=True)`: create the path and every
missing ancestor as directories; error if a regular file is in the way. -/
def mkdirParents (fs : FS) (p : Pathc) : Except Unit FS :=
  mkdirList (pathAncestors p) fs

/-- `path.write_text(content)`: error if the path is a directory or its parent
is not a directory; otherwise create or replace the regular file. -/
def write_text (fs : FS) (p : Pathc) (content : String) : Except Unit FS :=
  match fs p with
  | some Entry.dir => Except.error ()
  | _ =>
    if isDirB fs p.dropLast then Except.ok (updateFS fs p (Entry.file content))
    else Except.error ()

/-- The body of `ensure_dirs`, over an explicit list of directories. -/
def dirsList : List Pathc → FS × List Report → Except Unit (FS × List Report)
  | [], st => Except.ok st
  | d :: rest, st =>
    match mkdirParents st.1 d with
    | Except.error e => Except.error e
    | Except.ok fs1 => dirsList rest (fs1, st.2 ++ [Report.mkdirLine d])

/-- `ensure_dirs(root)`: create all required directories, one log line each. -/
def ensure_dirs (fs : FS) : Except Unit (FS × List Report) :=
  dirsList DIRS (fs, [])

/-- The effectful tail of one `write_files` iteration: create the target's
missing parent directories, then write the literal content. -/
def writeAux (fs : FS) (pc : Pathc × String) : Except Unit FS :=
  match mkdirParents fs pc.1.dropLast with
  | Except.error e => Except.error e
  | Except.ok fs1 => write_text fs1 pc.1 pc.2

/-- The loop body of `write_files` for one table entry: skip when the target
exists and `force` is off; otherwise create missing parents and write. -/
def writeOne (force : Bool) (st : FS × List Report) (pc : Pathc × String) :
    Except Unit (FS × List Report) :=
  if (st.1 pc.1).isSome && !force then
    Except.ok (st.1, st.2 ++ [Report.skip pc.1])
  else
    match writeAux st.1 pc with
    | Except.error e => Except.error e
    | Except.ok fs2 => Except.ok (fs2, st.2 ++ [Report.write pc.1])

/-- The body of `write_files`, over an explicit list of table entries. -/
def writeList (force : Bool) : List (Pathc × String) → FS × List Report →
    Except Unit (FS × List Report)
  | [], st => Except.ok st
  | pc :: rest, st =>
    match writeOne force st pc with
    | Except.error e => Except.error e
    | Except.ok st1 => writeList force rest st1

/-- `write_files(root, force)`: write all placeholder files. -/
def write_files (fs : FS) (force : Bool) : Except Unit (FS × List Report) :=
  writeList force FILES (fs, [])

/-- `create_root_package_json(root, force)`: same overwrite-or-skip contract,
applied to the single path `package.json` (no parent creation: the parent is
the root itself). -/
def create_root_package_json (fs : FS) (force : Bool) :
    Except Unit (FS × List Report) :=
  if (fs rootPkgPath).isSome && !force then
    Except.ok (fs, [Report.skip rootPkgPath])
  else
    match write_text fs rootPkgPath rootPackageJsonContent with
    | Except.error e => Except.error e
    | Except.ok fs1 => Except.ok (fs1, [Report.write rootPkgPath])

/-- Last stage of `main`: `create_root_package_json`, appending its reports
after the accumulated ones. -/
def stageRoot (force : Bool) (acc : List Report) (st : FS × List Report) :
    Except Unit (FS × List Report) :=
  match create_root_package_json st.1 force with
  | Except.error e => Except.error e
  | Except.ok stC => Except.ok (stC.1, acc ++ st.2 ++ stC.2)

/-- Middle stage of `main`: `write_files` then the root-manifest stage. -/
def stageWrites (force : Bool) (st : FS × List Report) :
    Except Unit (FS × List Report) :=
  match write_files st.1 force with
  | Except.error e => Except.error e
  | Except.ok stB => stageRoot force st.2 stB

/-- The effectful part of `main`: resolve the root (implicit here, since all
paths are relative to it), then `ensure_dirs`, `write_files`,
`create_root_package_json` in sequence, concatenating the console reports;
an uncaught filesystem error anywhere aborts the run. -/
def runTool (fs : FS) (force : Bool) : Except Unit (FS × List Report) :=
  match ensure_dirs fs with
  | Except.error e => Except.error e
  | Except.ok stA => stageWrites force stA

/-- `detect_repo_root`: the parent of the resolved script path, or the
grandparent when the parent directory is named `scripts`.  The script path is
an absolute path given as components from the filesystem root. -/
def detect_repo_root (script_path : List String) : List String :=
  if (script_path.dropLast).getLast? = some ("scripts") then
    script_path.dropLast.dropLast
  else
    script_path.dropLast

/-- The keys (paths) of a file-table fragment. -/
def keysOf (l : List (Pathc × String)) : List Pathc :=
  l.map (fun pc => pc.1)

/-- Every ancestor directory created on behalf of some entry of a file-table
fragment (the ancestors of each entry's parent directory). -/
def parentDirsOf (l : List (Pathc × String)) : List Pathc :=
  l.flatMap (fun pc => pathAncestors pc.1.dropLast)

/-- The paths a run is allowed to touch: the directory set and its ancestors,
the file-table keys and their ancestors, and the root manifest path. -/
def touchable (p : Pathc) : Prop :=
  p ∈ DIRS.flatMap pathAncestors ∨ p ∈ keysOf FILES ∨ p ∈ parentDirsOf FILES ∨
    p = rootPkgPath

/-- A filesystem whose only object is a regular file at `apps`. -/
def fsFileAtApps : FS := updateFS emptyFS ["apps"] (Entry.file ("stray"))

/-- A filesystem whose only object is a directory at `.gitignore`. -/
def fsDirAtGitignore : FS := updateFS emptyFS [".gitignore"] Entry.dir

/-- The state and reports produced by a skip-mode run on the empty root
(total, since that run succeeds). -/
def emptyRun : FS × List Report :=
  ((runTool emptyFS false).toOption).getD (emptyFS, [])

/-- The state and reports produced by a skip-mode run on a root that already
holds a directory at `.gitignore`. -/
def dirAtGitignoreRun : FS × List Report :=
  ((runTool fsDirAtGitignore false).toOption).getD (emptyFS, [])

/-- The state and reports produced by a force-mode run on the state left by a
skip-mode run on the empty root. -/
def emptyRunForce : FS × List Report :=
  ((runTool emptyRun.1 true).toOption).getD (emptyFS, [])

/-- The state and reports produced by `ensure_dirs` alone on the empty root. -/
def emptyEnsure : FS × List Report :=
  ((ensure_dirs emptyFS).toOption).getD (emptyFS, [])

/-- The state and reports produced by `write_files` alone on the empty root
(without running `ensure_dirs` first). -/
def emptyWriteFiles : FS × List Report :=
  ((write_files emptyFS false).toOption).getD (emptyFS, [])

/-- The filesystem after creating the parents of `apps/README.md` in the
empty root. -/
def mkdirAppsResult : FS :=
  ((mkdirParents emptyFS (["apps", "README.md"]).dropLast).toOption).getD emptyFS

/-- A root holding a user-modified regular file at `.gitignore`. -/
def fsModifiedGitignore : FS :=
  updateFS emptyFS [".gitignore"] (Entry.file ("user content"))

/-- The state and reports of a skip-mode run over the user-modified root. -/
def modifiedRun : FS × List Report :=
  ((runTool fsModifiedGitignore false).toOption).getD (emptyFS, [])

/-- The state and reports of a force-mode run over the user-modified root. -/
def modifiedForceRun : FS × List Report :=
  ((runTool fsModifiedGitignore true).toOption).getD (emptyFS, [])

/-! ### Basic lemmas about the filesystem primitives -/

theorem updateFS_self (fs : FS) (p : Pathc) (e : Entry) : updateFS fs p e p = some e := by
  simp [updateFS]

theorem updateFS_ne (fs : FS) (p q : Pathc) (e : Entry) (h : q ≠ p) :
    updateFS fs p e q = fs q := by
  simp [updateFS, h]

theorem mkdirStep_cases {fs fs' : FS} {q : Pathc} (h : mkdirStep fs q = Except.ok fs') :
    (fs q = some Entry.dir ∧ fs' = fs) ∨ (fs q = none ∧ fs' = updateFS fs q Entry.dir) := by
  unfold mkdirStep at h
  cases hq : fs q with
  | none =>
    rw [hq] at h
    injection h with h
    exact Or.inr ⟨rfl, h.symm⟩
  | some e =>
    cases e with
    | file c =>
      rw [hq] at h
      exact absurd h (by simp)
    | dir =>
      rw [hq] at h
      injection h with h
      exact Or.inl ⟨rfl, h.symm⟩

theorem mkdirStep_mono {fs fs' : FS} {q : Pathc} (h : mkdirStep fs q = Except.ok fs')
    {p : Pathc} {e : Entry} (hp : fs p = some e) : fs' p = some e := by
  rcases mkdirStep_cases h with ⟨_, rfl⟩ | ⟨hq, rfl⟩
  · exact hp
  · have hne : p ≠ q := by
      intro heq
      rw [heq, hq] at hp
      exact Option.noConfusion hp
    rw [updateFS_ne _ _ _ _ hne]
    exact hp

theorem mkdirStep_frame {fs fs' : FS} {q : Pathc} (h : mkdirStep fs q = Except.ok fs')
    {p : Pathc} (hp : p ≠ q) : fs' p = fs p := by
  rcases mkdirStep_cases h with ⟨_, rfl⟩ | ⟨_, rfl⟩
  · rfl
  · exact updateFS_ne _ _ _ _ hp

theorem mkdirStep_post {fs fs' : FS} {q : Pathc} (h : mkdirStep fs q = Except.ok fs') :
    fs' q = some Entry.dir := by
  rcases mkdirStep_cases h with ⟨hq, rfl⟩ | ⟨_, rfl⟩
  · exact hq
  · exact updateFS_self _ _ _

theorem mkdirStep_of_dir {fs : FS} {q : Pathc} (h : fs q = some Entry.dir) :
    mkdirStep fs q = Except.ok fs := by
  unfold mkdirStep
  rw [h]

theorem mkdirList_mono : ∀ {l : List Pathc} {fs fs' : FS},
    mkdirList l fs = Except.ok fs' →
    ∀ {p : Pathc} {e : Entry}, fs p = some e → fs' p = some e := by
  intro l
  induction l with
  | nil =>
    intro fs fs' h p e hp
    unfold mkdirList at h
    injection h with h
    rw [← h]
    exact hp
  | cons q rest ih =>
    intro fs fs' h p e hp
    unfold mkdirList at h
    cases hstep : mkdirStep fs q with
    | error e0 =>
      rw [hstep] at h
      exact absurd h (by simp)
    | ok fs1 =>
      rw [hstep] at h
      exact ih h (mkdirStep_mono hstep hp)

theorem mkdirList_frame : ∀ {l : List Pathc} {fs fs' : FS},
    mkdirList l fs = Except.ok fs' →
    ∀ {p : Pathc}, p ∉ l → fs' p = fs p := by
  intro l
  induction l with
  | nil =>
    intro fs fs' h p _
    unfold mkdirList at h
    injection h with h
    rw [← h]
  | cons q rest ih =>
    intro fs fs' h p hp
    unfold mkdirList at h
    cases hstep : mkdirStep fs q with
    | error e0 =>
      rw [hstep] at h
      exact absurd h (by simp)
    | ok fs1 =>
      rw [hstep] at h
      have h1 : p ∉ rest := fun hm => hp (List.mem_cons_of_mem _ hm)
      have h2 : p ≠ q := fun he => hp (he ▸ List.mem_cons_self _ _)
      rw [ih h h1, mkdirStep_frame hstep h2]

theorem mkdirList_post : ∀ {l : List Pathc} {fs fs' : FS},
    mkdirList l fs = Except.ok fs' →
    ∀ {q : Pathc}, q ∈ l → fs' q = some Entry.dir := by
  intro l
  induction l with
  | nil =>
    intro fs fs' _ q hq
    exact absurd hq (List.not_mem_nil q)
  | cons d rest ih =>
    intro fs fs' h q hq
    unfold mkdirList at h
    cases hstep : mkdirStep fs d with
    | error e0 =>
      rw [hstep] at h
      exact absurd h (by simp)
    | ok fs1 =>
      rw [hstep] at h
      rcases List.mem_cons.mp hq with rfl | hq
      · exact mkdirList_mono h (mkdirStep_post hstep)
      · exact ih h hq

theorem mkdirList_of_allDir : ∀ {l : List Pathc} {fs : FS},
    (∀ q ∈ l, fs q = some Entry.dir) → mkdirList l fs = Except.ok fs := by
  intro l
  induction l with
  | nil =>
    intro fs _
    rfl
  | cons q rest ih =>
    intro fs hall
    unfold mkdirList
    rw [mkdirStep_of_dir (hall q (List.mem_cons_self _ _))]
    exact ih (fun d hd => hall d (List.mem_cons_of_mem _ hd))

theorem self_mem_pathAncestors : ∀ {p : Pathc}, p ≠ [] → p ∈ pathAncestors p := by
  intro p
  induction p with
  | nil =>
    intro h
    exact absurd rfl h
  | cons c rest ih =>
    intro _
    unfold pathAncestors
    by_cases hr : rest = []
    · subst hr
      exact List.mem_cons_self _ _
    · exact List.mem_cons_of_mem _ (List.mem_map_of_mem _ (ih hr))

theorem mkdirParents_mono {fs fs' : FS} {p : Pathc}
    (h : mkdirParents fs p = Except.ok fs')
    {q : Pathc} {e : Entry} (hq : fs q = some e) : fs' q = some e :=
  mkdirList_mono h hq

theorem mkdirParents_frame {fs fs' : FS} {p : Pathc}
    (h : mkdirParents fs p = Except.ok fs')
    {q : Pathc} (hq : q ∉ pathAncestors p) : fs' q = fs q :=
  mkdirList_frame h hq

theorem mkdirParents_isDir {fs fs' : FS} {p : Pathc}
    (h : mkdirParents fs p = Except.ok fs') : isDirB fs' p = true := by
  by_cases hp : p = []
  · subst hp
    simp [isDirB]
  · have := mkdirList_post h (self_mem_pathAncestors hp)
    simp [isDirB, this]

theorem mkdirParents_nil (fs : FS) : mkdirParents fs [] = Except.ok fs := rfl

theorem write_text_ok {fs fs' : FS} {p : Pathc} {c : String}
    (h : write_text fs p c = Except.ok fs') :
    fs' = updateFS fs p (Entry.file c) ∧ fs p ≠ some Entry.dir := by
  unfold write_text at h
  cases hp : fs p with
  | none =>
    rw [hp] at h
    constructor
    · by_cases hd : isDirB fs p.dropLast
      · rw [if_pos hd] at h
        injection h with h
        exact h.symm
      · rw [if_neg hd] at h
        exact absurd h (by simp)
    · exact fun he => Option.noConfusion he
  | some e =>
    cases e with
    | dir =>
      rw [hp] at h
      exact absurd h (by simp)
    | file c0 =>
      rw [hp] at h
      constructor
      · by_cases hd : isDirB fs p.dropLast
        · rw [if_pos hd] at h
          injection h with h
          exact h.symm
        · rw [if_neg hd] at h
          exact absurd h (by simp)
      · intro he
        injection he with he
        exact Entry.noConfusion he

theorem write_text_of_isDir {fs : FS} {p : Pathc} {c : String}
    (hnotdir : fs p ≠ some Entry.dir) (hparent : isDirB fs p.dropLast = true) :
    write_text fs p c = Except.ok (updateFS fs p (Entry.file c)) := by
  unfold write_text
  cases hp : fs p with
  | none => rw [if_pos hparent]
  | some e =>
    cases e with
    | dir => exact absurd hp hnotdir
    | file c0 => rw [if_pos hparent]

/-! ### Lemmas about the write-files loop -/

theorem writeAux_ok {fs fs2 : FS} {pc : Pathc × String}
    (h : writeAux fs pc = Except.ok fs2) :
    ∃ fs1, mkdirParents fs pc.1.dropLast = Except.ok fs1 ∧
      write_text fs1 pc.1 pc.2 = Except.ok fs2 := by
  unfold writeAux at h
  cases hm : mkdirParents fs pc.1.dropLast with
  | error e0 =>
    rw [hm] at h
    exact absurd h (by simp)
  | ok fs1 =>
    rw [hm] at h
    exact ⟨fs1, rfl, h⟩

theorem writeOne_cases {force : Bool} {st st' : FS × List Report} {pc : Pathc × String}
    (h : writeOne force st pc = Except.ok st') :
    ((st.1 pc.1).isSome = true ∧ force = false ∧
      st' = (st.1, st.2 ++ [Report.skip pc.1]))
    ∨ (∃ fs1, mkdirParents st.1 pc.1.dropLast = Except.ok fs1 ∧
        fs1 pc.1 ≠ some Entry.dir ∧
        st' = (updateFS fs1 pc.1 (Entry.file pc.2), st.2 ++ [Report.write pc.1]) ∧
        ((st.1 pc.1).isSome && !force) ≠ true) := by
  unfold writeOne at h
  by_cases hc : ((st.1 pc.1).isSome && !force) = true
  · rw [if_pos hc] at h
    injection h with h
    have h12 : (st.1 pc.1).isSome = true ∧ force = false := by
      simpa using hc
    exact Or.inl ⟨h12.1, h12.2, h.symm⟩
  · rw [if_neg hc] at h
    cases hw : writeAux st.1 pc with
    | error e0 =>
      rw [hw] at h
      exact absurd h (by simp)
    | ok fs2 =>
      rw [hw] at h
      injection h with h
      rcases writeAux_ok hw with ⟨fs1, hm, hwt⟩
      rcases write_text_ok hwt with ⟨rfl, hnd⟩
      exact Or.inr ⟨fs1, hm, hnd, h.symm, hc⟩

theorem writeOne_skip_mono {st st' : FS × List Report} {pc : Pathc × String}
    (h : writeOne false st pc = Except.ok st')
    {p : Pathc} {e : Entry} (hp : st.1 p = some e) : st'.1 p = some e := by
  rcases writeOne_cases h with ⟨_, _, rfl⟩ | ⟨fs1, hm, _, rfl, hc⟩
  · exact hp
  · have hnone : st.1 pc.1 = none := by
      cases hs : st.1 pc.1 with
      | none => rfl
      | some e0 =>
        exact absurd (by simp [hs]) hc
    have hne : p ≠ pc.1 := by
      intro he
      rw [he, hnone] at hp
      exact Option.noConfusion hp
    show updateFS fs1 pc.1 (Entry.file pc.2) p = some e
    rw [updateFS_ne _ _ _ _ hne]
    exact mkdirParents_mono hm hp

theorem writeOne_some_mono {force : Bool} {st st' : FS × List Report}
    {pc : Pathc × String} (h : writeOne force st pc = Except.ok st')
    {p : Pathc} (hp : (st.1 p).isSome = true) : (st'.1 p).isSome = true := by
  rcases writeOne_cases h with ⟨_, _, rfl⟩ | ⟨fs1, hm, _, rfl, _⟩
  · exact hp
  · show (updateFS fs1 pc.1 (Entry.file pc.2) p).isSome = true
    by_cases hne : p = pc.1
    · rw [hne, updateFS_self]
      rfl
    · rw [updateFS_ne _ _ _ _ hne]
      rcases Option.isSome_iff_exists.mp hp with ⟨e, he⟩
      rw [mkdirParents_mono hm he]
      rfl

theorem writeOne_frame {force : Bool} {st st' : FS × List Report}
    {pc : Pathc × String} (h : writeOne force st pc = Except.ok st')
    {p : Pathc} (hk : p ≠ pc.1) (ha : p ∉ pathAncestors pc.1.dropLast) :
    st'.1 p = st.1 p := by
  rcases writeOne_cases h with ⟨_, _, rfl⟩ | ⟨fs1, hm, _, rfl, _⟩
  · rfl
  · show updateFS fs1 pc.1 (Entry.file pc.2) p = st.1 p
    rw [updateFS_ne _ _ _ _ hk]
    exact mkdirParents_frame hm ha

theorem writeOne_none {st st' : FS × List Report} {pc : Pathc × String}
    (h : writeOne false st pc = Except.ok st') (hn : st.1 pc.1 = none) :
    st'.1 pc.1 = some (Entry.file pc.2) := by
  rcases writeOne_cases h with ⟨hs, _, rfl⟩ | ⟨fs1, _, _, rfl, _⟩
  · rw [hn] at hs
    exact absurd hs (by simp)
  · exact updateFS_self _ _ _

theorem writeOne_force_post {st st' : FS × List Report} {pc : Pathc × String}
    (h : writeOne true st pc = Except.ok st') :
    st'.1 pc.1 = some (Entry.file pc.2) := by
  rcases writeOne_cases h with ⟨_, hf, _⟩ | ⟨fs1, _, _, rfl, _⟩
  · exact absurd hf (by simp)
  · exact updateFS_self _ _ _

theorem writeOne_skip_of_some {st : FS × List Report} {pc : Pathc × String}
    (hs : (st.1 pc.1).isSome = true) :
    writeOne false st pc = Except.ok (st.1, st.2 ++ [Report.skip pc.1]) := by
  unfold writeOne
  rw [if_pos (by simp [hs])]

theorem writeOne_reports {force : Bool} {st st' : FS × List Report}
    {pc : Pathc × String} (h : writeOne force st pc = Except.ok st')
    {x : Report} (hx : x ∈ st.2) : x ∈ st'.2 := by
  rcases writeOne_cases h with ⟨_, _, rfl⟩ | ⟨fs1, _, _, rfl, _⟩
  · exact List.mem_append_left _ hx
  · exact List.mem_append_left _ hx

theorem writeList_skip_mono : ∀ {l : List (Pathc × String)} {st st' : FS × List Report},
    writeList false l st = Except.ok st' →
    ∀ {p : Pathc} {e : Entry}, st.1 p = some e → st'.1 p = some e := by
  intro l
  induction l with
  | nil =>
    intro st st' h p e hp
    unfold writeList at h
    injection h with h
    rw [← h]
    exact hp
  | cons pc rest ih =>
    intro st st' h p e hp
    unfold writeList at h
    cases hstep : writeOne false st pc with
    | error e0 =>
      rw [hstep] at h
      exact absurd h (by simp)
    | ok st1 =>
      rw [hstep] at h
      exact ih h (writeOne_skip_mono hstep hp)

theorem writeList_some_mono : ∀ {force : Bool} {l : List (Pathc × String)}
    {st st' : FS × List Report},
    writeList force l st = Except.ok st' →
    ∀ {p : Pathc}, (st.1 p).isSome = true → (st'.1 p).isSome = true := by
  intro force l
  induction l with
  | nil =>
    intro st st' h p hp
    unfold writeList at h
    injection h with h
    rw [← h]
    exact hp
  | cons pc rest ih =>
    intro st st' h p hp
    unfold writeList at h
    cases hstep : writeOne force st pc with
    | error e0 =>
      rw [hstep] at h
      exact absurd h (by simp)
    | ok st1 =>
      rw [hstep] at h
      exact ih h (writeOne_some_mono hstep hp)

theorem writeList_frame : ∀ {force : Bool} {l : List (Pathc × String)}
    {st st' : FS × List Report},
    writeList force l st = Except.ok st' →
    ∀ {p : Pathc}, p ∉ keysOf l → p ∉ parentDirsOf l → st'.1 p = st.1 p := by
  intro force l
  induction l with
  | nil =>
    intro st st' h p _ _
    unfold writeList at h
    injection h with h
    rw [← h]
  | cons pc rest ih =>
    intro st st' h p hk ha
    unfold writeList at h
    cases hstep : writeOne force st pc with
    | error e0 =>
      rw [hstep] at h
      exact absurd h (by simp)
    | ok st1 =>
      rw [hstep] at h
      have hk1 : p ≠ pc.1 := by
        intro he
        exact hk (he ▸ List.mem_map_of_mem _ (List.mem_cons_self _ _))
      have ha1 : p ∉ pathAncestors pc.1.dropLast := by
        intro hm
        exact ha (List.mem_flatMap.mpr ⟨pc, List.mem_cons_self _ _, hm⟩)
      have hk2 : p ∉ keysOf rest := by
        intro hm
        rcases List.mem_map.mp hm with ⟨q, hq, he⟩
        exact hk (List.mem_map.mpr ⟨q, List.mem_cons_of_mem _ hq, he⟩)
      have ha2 : p ∉ parentDirsOf rest := by
        intro hm
        rcases List.mem_flatMap.mp hm with ⟨q, hq, he⟩
        exact ha (List.mem_flatMap.mpr ⟨q, List.mem_cons_of_mem _ hq, he⟩)
      rw [ih h hk2 ha2, writeOne_frame hstep hk1 ha1]

theorem writeList_reports : ∀ {force : Bool} {l : List (Pathc × String)}
    {st st' : FS × List Report},
    writeList force l st = Except.ok st' →
    ∀ {x : Report}, x ∈ st.2 → x ∈ st'.2 := by
  intro force l
  induction l with
  | nil =>
    intro st st' h x hx
    unfold writeList at h
    injection h with h
    rw [← h]
    exact hx
  | cons pc rest ih =>
    intro st st' h x hx
    unfold writeList at h
    cases hstep : writeOne force st pc with
    | error e0 =>
      rw [hstep] at h
      exact absurd h (by simp)
    | ok st1 =>
      rw [hstep] at h
      exact ih h (writeOne_reports hstep hx)

theorem writeList_skip_report : ∀ {l : List (Pathc × String)}
    {st st' : FS × List Report},
    writeList false l st = Except.ok st' →
    ∀ {pc : Pathc × String}, pc ∈ l → (st.1 pc.1).isSome = true →
    Report.skip pc.1 ∈ st'.2 := by
  intro l
  induction l with
  | nil =>
    intro st st' _ pc hpc _
    exact absurd hpc (List.not_mem_nil pc)
  | cons pc0 rest ih =>
    intro st st' h pc hpc hs
    unfold writeList at h
    cases hstep : writeOne false st pc0 with
    | error e0 =>
      rw [hstep] at h
      exact absurd h (by simp)
    | ok st1 =>
      rw [hstep] at h
      rcases List.mem_cons.mp hpc with rfl | hpc
      · have : Report.skip pc.1 ∈ st1.2 := by
          rw [writeOne_skip_of_some hs] at hstep
          injection hstep with hstep
          rw [← hstep]
          exact List.mem_append_right _ (List.mem_cons_self _ _)
        exact writeList_reports h this
      · exact ih h hpc (writeOne_some_mono hstep hs)

theorem writeList_isSome_after : ∀ {l : List (Pathc × String)}
    {st st' : FS × List Report},
    writeList false l st = Except.ok st' →
    ∀ {pc : Pathc × String}, pc ∈ l → (st'.1 pc.1).isSome = true := by
  intro l
  induction l with
  | nil =>
    intro st st' _ pc hpc
    exact absurd hpc (List.not_mem_nil pc)
  | cons pc0 rest ih =>
    intro st st' h pc hpc
    unfold writeList at h
    cases hstep : writeOne false st pc0 with
    | error e0 =>
      rw [hstep] at h
      exact absurd h (by simp)
    | ok st1 =>
      rw [hstep] at h
      rcases List.mem_cons.mp hpc with rfl | hpc
      · cases hs : st.1 pc.1 with
        | none =>
          have := writeOne_none hstep hs
          exact writeList_some_mono h (by simp [this])
        | some e =>
          have := writeOne_skip_mono hstep hs
          exact writeList_some_mono h (by simp [this])
      · exact ih h hpc

theorem writeList_all_exists : ∀ {l : List (Pathc × String)}
    {st : FS × List Report},
    (∀ pc ∈ l, (st.1 pc.1).isSome = true) →
    ∃ r, writeList false l st = Except.ok (st.1, r) := by
  intro l
  induction l with
  | nil =>
    intro st _
    exact ⟨st.2, rfl⟩
  | cons pc rest ih =>
    intro st hall
    unfold writeList
    rw [writeOne_skip_of_some (hall pc (List.mem_cons_self _ _))]
    exact ih (fun q hq => hall q (List.mem_cons_of_mem _ hq))

/-! ### Lemmas about the directory stage, the manifest stage and the full run -/

theorem dirsList_mono : ∀ {l : List Pathc} {st st' : FS × List Report},
    dirsList l st = Except.ok st' →
    ∀ {p : Pathc} {e : Entry}, st.1 p = some e → st'.1 p = some e := by
  intro l
  induction l with
  | nil =>
    intro st st' h p e hp
    unfold dirsList at h
    injection h with h
    rw [← h]
    exact hp
  | cons d rest ih =>
    intro st st' h p e hp
    unfold dirsList at h
    cases hm : mkdirParents st.1 d with
    | error e0 =>
      rw [hm] at h
      exact absurd h (by simp)
    | ok fs1 =>
      rw [hm] at h
      exact ih h (mkdirParents_mono hm hp)

theorem dirsList_frame : ∀ {l : List Pathc} {st st' : FS × List Report},
    dirsList l st = Except.ok st' →
    ∀ {p : Pathc}, p ∉ l.flatMap pathAncestors → st'.1 p = st.1 p := by
  intro l
  induction l with
  | nil =>
    intro st st' h p _
    unfold dirsList at h
    injection h with h
    rw [← h]
  | cons d rest ih =>
    intro st st' h p hp
    unfold dirsList at h
    cases hm : mkdirParents st.1 d with
    | error e0 =>
      rw [hm] at h
      exact absurd h (by simp)
    | ok fs1 =>
      rw [hm] at h
      have h1 : p ∉ rest.flatMap pathAncestors := by
        intro hmem
        rcases List.mem_flatMap.mp hmem with ⟨q, hq, he⟩
        exact hp (List.mem_flatMap.mpr ⟨q, List.mem_cons_of_mem _ hq, he⟩)
      have h2 : p ∉ pathAncestors d := by
        intro hmem
        exact hp (List.mem_flatMap.mpr ⟨d, List.mem_cons_self _ _, hmem⟩)
      rw [ih h h1]
      exact mkdirParents_frame hm h2

theorem dirsList_post : ∀ {l : List Pathc} {st st' : FS × List Report},
    dirsList l st = Except.ok st' →
    ∀ {d : Pathc}, d ∈ l → ∀ {q : Pathc}, q ∈ pathAncestors d →
    st'.1 q = some Entry.dir := by
  intro l
  induction l with
  | nil =>
    intro st st' _ d hd
    exact absurd hd (List.not_mem_nil d)
  | cons d0 rest ih =>
    intro st st' h d hd q hq
    unfold dirsList at h
    cases hm : mkdirParents st.1 d0 with
    | error e0 =>
      rw [hm] at h
      exact absurd h (by simp)
    | ok fs1 =>
      rw [hm] at h
      rcases List.mem_cons.mp hd with rfl | hd
      · exact dirsList_mono h (mkdirList_post hm hq)
      · exact ih h hd hq

theorem dirsList_all_exists : ∀ {l : List Pathc} {st : FS × List Report},
    (∀ d ∈ l, ∀ q ∈ pathAncestors d, st.1 q = some Entry.dir) →
    ∃ r, dirsList l st = Except.ok (st.1, r) := by
  intro l
  induction l with
  | nil =>
    intro st _
    exact ⟨st.2, rfl⟩
  | cons d rest ih =>
    intro st hall
    unfold dirsList
    have hm : mkdirParents st.1 d = Except.ok st.1 :=
      mkdirList_of_allDir (fun q hq => hall d (List.mem_cons_self _ _) q hq)
    rw [hm]
    exact ih (fun d0 hd0 q hq => hall d0 (List.mem_cons_of_mem _ hd0) q hq)

theorem create_root_cases {force : Bool} {fs : FS} {st' : FS × List Report}
    (h : create_root_package_json fs force = Except.ok st') :
    ((fs rootPkgPath).isSome = true ∧ force = false ∧
      st' = (fs, [Report.skip rootPkgPath]))
    ∨ (fs rootPkgPath ≠ some Entry.dir ∧
        st' = (updateFS fs rootPkgPath (Entry.file rootPackageJsonContent),
          [Report.write rootPkgPath]) ∧
        ((fs rootPkgPath).isSome && !force) ≠ true) := by
  unfold create_root_package_json at h
  by_cases hc : ((fs rootPkgPath).isSome && !force) = true
  · rw [if_pos hc] at h
    injection h with h
    have h12 : (fs rootPkgPath).isSome = true ∧ force = false := by
      simpa using hc
    exact Or.inl ⟨h12.1, h12.2, h.symm⟩
  · rw [if_neg hc] at h
    cases hw : write_text fs rootPkgPath rootPackageJsonContent with
    | error e0 =>
      rw [hw] at h
      exact absurd h (by simp)
    | ok fs1 =>
      rw [hw] at h
      injection h with h
      rcases write_text_ok hw with ⟨rfl, hnd⟩
      exact Or.inr ⟨hnd, h.symm, hc⟩

theorem create_root_skip_mono {fs : FS} {st' : FS × List Report}
    (h : create_root_package_json fs false = Except.ok st')
    {p : Pathc} {e : Entry} (hp : fs p = some e) : st'.1 p = some e := by
  rcases create_root_cases h with ⟨_, _, rfl⟩ | ⟨_, rfl, hc⟩
  · exact hp
  · have hnone : fs rootPkgPath = none := by
      cases hs : fs rootPkgPath with
      | none => rfl
      | some e0 => exact absurd (by simp [hs]) hc
    have hne : p ≠ rootPkgPath := by
      intro he
      rw [he, hnone] at hp
      exact Option.noConfusion hp
    show updateFS fs rootPkgPath (Entry.file rootPackageJsonContent) p = some e
    rw [updateFS_ne _ _ _ _ hne]
    exact hp

theorem create_root_some_mono {force : Bool} {fs : FS} {st' : FS × List Report}
    (h : create_root_package_json fs force = Except.ok st')
    {p : Pathc} (hp : (fs p).isSome = true) : (st'.1 p).isSome = true := by
  rcases create_root_cases h with ⟨_, _, rfl⟩ | ⟨_, rfl, _⟩
  · exact hp
  · show (updateFS fs rootPkgPath (Entry.file rootPackageJsonContent) p).isSome = true
    by_cases hne : p = rootPkgPath
    · rw [hne, updateFS_self]
      rfl
    · rw [updateFS_ne _ _ _ _ hne]
      exact hp

theorem create_root_frame {force : Bool} {fs : FS} {st' : FS × List Report}
    (h : create_root_package_json fs force = Except.ok st')
    {p : Pathc} (hne : p ≠ rootPkgPath) : st'.1 p = fs p := by
  rcases create_root_cases h with ⟨_, _, rfl⟩ | ⟨_, rfl, _⟩
  · rfl
  · exact updateFS_ne _ _ _ _ hne

theorem create_root_post {force : Bool} {fs : FS} {st' : FS × List Report}
    (h : create_root_package_json fs force = Except.ok st') :
    (st'.1 rootPkgPath).isSome = true := by
  rcases create_root_cases h with ⟨hs, _, rfl⟩ | ⟨_, rfl, _⟩
  · exact hs
  · show (updateFS fs rootPkgPath (Entry.file rootPackageJsonContent)
      rootPkgPath).isSome = true
    rw [updateFS_self]
    rfl

theorem create_root_force_post {fs : FS} {st' : FS × List Report}
    (h : create_root_package_json fs true = Except.ok st') :
    st'.1 rootPkgPath = some (Entry.file rootPackageJsonContent) := by
  rcases create_root_cases h with ⟨_, hf, _⟩ | ⟨_, rfl, _⟩
  · exact absurd hf (by simp)
  · show updateFS fs rootPkgPath (Entry.file rootPackageJsonContent)
      rootPkgPath = some (Entry.file rootPackageJsonContent)
    exact updateFS_self _ _ _

theorem create_root_none_post {fs : FS} {st' : FS × List Report}
    (h : create_root_package_json fs false = Except.ok st')
    (hn : fs rootPkgPath = none) :
    st'.1 rootPkgPath = some (Entry.file rootPackageJsonContent) := by
  rcases create_root_cases h with ⟨hs, _, rfl⟩ | ⟨_, rfl, _⟩
  · rw [hn] at hs
    exact absurd hs (by simp)
  · show updateFS fs rootPkgPath (Entry.file rootPackageJsonContent)
      rootPkgPath = some (Entry.file rootPackageJsonContent)
    exact updateFS_self _ _ _

theorem create_root_skip_of_some {fs : FS} (hs : (fs rootPkgPath).isSome = true) :
    create_root_package_json fs false =
      Except.ok (fs, [Report.skip rootPkgPath]) := by
  unfold create_root_package_json
  rw [if_pos (by simp [hs])]

theorem stageRoot_ok {force : Bool} {acc : List Report} {st out : FS × List Report}
    (h : stageRoot force acc st = Except.ok out) :
    ∃ stC, create_root_package_json st.1 force = Except.ok stC ∧
      out = (stC.1, acc ++ st.2 ++ stC.2) := by
  unfold stageRoot at h
  cases hc : create_root_package_json st.1 force with
  | error e0 =>
    rw [hc] at h
    exact absurd h (by simp)
  | ok stC =>
    rw [hc] at h
    injection h with h
    exact ⟨stC, rfl, h.symm⟩

theorem stageWrites_ok {force : Bool} {st out : FS × List Report}
    (h : stageWrites force st = Except.ok out) :
    ∃ stB, write_files st.1 force = Except.ok stB ∧
      stageRoot force st.2 stB = Except.ok out := by
  unfold stageWrites at h
  cases hw : write_files st.1 force with
  | error e0 =>
    rw [hw] at h
    exact absurd h (by simp)
  | ok stB =>
    rw [hw] at h
    exact ⟨stB, rfl, h⟩

theorem runTool_ok {fs : FS} {force : Bool} {out : FS × List Report}
    (h : runTool fs force = Except.ok out) :
    ∃ stA stB stC,
      ensure_dirs fs = Except.ok stA ∧
      write_files stA.1 force = Except.ok stB ∧
      create_root_package_json stB.1 force = Except.ok stC ∧
      out.1 = stC.1 ∧ out.2 = stA.2 ++ stB.2 ++ stC.2 := by
  unfold runTool at h
  cases he : ensure_dirs fs with
  | error e0 =>
    rw [he] at h
    exact absurd h (by simp)
  | ok stA =>
    rw [he] at h
    rcases stageWrites_ok h with ⟨stB, hw, hr⟩
    rcases stageRoot_ok hr with ⟨stC, hc, hout⟩
    exact ⟨stA, stB, stC, rfl, hw, hc, by rw [hout], by rw [hout]⟩

theorem runTool_skip_mono {fs : FS} {out : FS × List Report}
    (h : runTool fs false = Except.ok out)
    {p : Pathc} {e : Entry} (hp : fs p = some e) : out.1 p = some e := by
  rcases runTool_ok h with ⟨stA, stB, stC, he, hw, hc, hout1, _⟩
  rw [hout1]
  exact create_root_skip_mono hc
    (writeList_skip_mono hw (dirsList_mono he hp))

/-! ### Table-specific facts and run-level helper lemmas -/

theorem FILES_keys_nodup : (keysOf FILES).Nodup := by decide

theorem FILES_not_parentDirs : ∀ pc ∈ FILES, pc.1 ∉ parentDirsOf FILES := by decide

theorem FILES_not_dirAncestors : ∀ pc ∈ FILES, pc.1 ∉ DIRS.flatMap pathAncestors := by
  decide

theorem FILES_keys_ne_root : ∀ pc ∈ FILES, pc.1 ≠ rootPkgPath := by decide

theorem DIRS_ne_nil : ∀ d ∈ DIRS, d ≠ [] := by decide

theorem writeList_none_written : ∀ {l : List (Pathc × String)}
    {st st' : FS × List Report},
    writeList false l st = Except.ok st' → (keysOf l).Nodup →
    ∀ {pc : Pathc × String}, pc ∈ l → pc.1 ∉ parentDirsOf l →
    st.1 pc.1 = none → st'.1 pc.1 = some (Entry.file pc.2) := by
  intro l
  induction l with
  | nil =>
    intro st st' _ _ pc hpc
    exact absurd hpc (List.not_mem_nil pc)
  | cons pc0 rest ih =>
    intro st st' h hnd pc hpc hpd hnone
    unfold writeList at h
    cases hstep : writeOne false st pc0 with
    | error e0 =>
      rw [hstep] at h
      exact absurd h (by simp)
    | ok st1 =>
      rw [hstep] at h
      rcases List.mem_cons.mp hpc with rfl | hpc
      · exact writeList_skip_mono h (writeOne_none hstep hnone)
      · have hnd' : pc0.1 ∉ keysOf rest ∧ (keysOf rest).Nodup := by
          have : keysOf (pc0 :: rest) = pc0.1 :: keysOf rest := rfl
          rw [this] at hnd
          exact List.nodup_cons.mp hnd
        have hne : pc.1 ≠ pc0.1 := by
          intro he
          have hmem : pc.1 ∈ keysOf rest := List.mem_map.mpr ⟨pc, hpc, rfl⟩
          rw [he] at hmem
          exact hnd'.1 hmem
        have hna : pc.1 ∉ pathAncestors pc0.1.dropLast := by
          intro hm
          exact hpd (List.mem_flatMap.mpr ⟨pc0, List.mem_cons_self _ _, hm⟩)
        have h1 : st1.1 pc.1 = none := by
          rw [writeOne_frame hstep hne hna]
          exact hnone
        have hpd2 : pc.1 ∉ parentDirsOf rest := by
          intro hm
          rcases List.mem_flatMap.mp hm with ⟨q, hq, he⟩
          exact hpd (List.mem_flatMap.mpr ⟨q, List.mem_cons_of_mem _ hq, he⟩)
        exact ih h hnd'.2 hpc hpd2 h1

theorem writeList_force_post : ∀ {l : List (Pathc × String)}
    {st st' : FS × List Report},
    writeList true l st = Except.ok st' → (keysOf l).Nodup →
    ∀ {pc : Pathc × String}, pc ∈ l → pc.1 ∉ parentDirsOf l →
    st'.1 pc.1 = some (Entry.file pc.2) := by
  intro l
  induction l with
  | nil =>
    intro st st' _ _ pc hpc
    exact absurd hpc (List.not_mem_nil pc)
  | cons pc0 rest ih =>
    intro st st' h hnd pc hpc hpd
    unfold writeList at h
    cases hstep : writeOne true st pc0 with
    | error e0 =>
      rw [hstep] at h
      exact absurd h (by simp)
    | ok st1 =>
      rw [hstep] at h
      have hnd' : pc0.1 ∉ keysOf rest ∧ (keysOf rest).Nodup := by
        have : keysOf (pc0 :: rest) = pc0.1 :: keysOf rest := rfl
        rw [this] at hnd
        exact List.nodup_cons.mp hnd
      rcases List.mem_cons.mp hpc with rfl | hpc
      · have hpost := writeOne_force_post hstep
        have ha : pc.1 ∉ parentDirsOf rest := by
          intro hm
          rcases List.mem_flatMap.mp hm with ⟨q, hq, he⟩
          exact hpd (List.mem_flatMap.mpr ⟨q, List.mem_cons_of_mem _ hq, he⟩)
        rw [writeList_frame h hnd'.1 ha]
        exact hpost
      · have hne : pc.1 ≠ pc0.1 := by
          intro he
          have hmem : pc.1 ∈ keysOf rest := List.mem_map.mpr ⟨pc, hpc, rfl⟩
          rw [he] at hmem
          exact hnd'.1 hmem
        have hpd2 : pc.1 ∉ parentDirsOf rest := by
          intro hm
          rcases List.mem_flatMap.mp hm with ⟨q, hq, he⟩
          exact hpd (List.mem_flatMap.mpr ⟨q, List.mem_cons_of_mem _ hq, he⟩)
        exact ih h hnd'.2 hpc hpd2

theorem create_root_skip_report {fs : FS} {st' : FS × List Report}
    (h : create_root_package_json fs false = Except.ok st')
    (hs : (fs rootPkgPath).isSome = true) : Report.skip rootPkgPath ∈ st'.2 := by
  rw [create_root_skip_of_some hs] at h
  injection h with h
  rw [← h]
  exact List.mem_cons_self _ _

theorem stageRoot_build {force : Bool} {acc : List Report} {st stC : FS × List Report}
    (hC : create_root_package_json st.1 force = Except.ok stC) :
    stageRoot force acc st = Except.ok (stC.1, acc ++ st.2 ++ stC.2) := by
  unfold stageRoot
  rw [hC]

theorem stageWrites_build {force : Bool} {st stB out : FS × List Report}
    (hW : write_files st.1 force = Except.ok stB)
    (h2 : stageRoot force st.2 stB = Except.ok out) :
    stageWrites force st = Except.ok out := by
  unfold stageWrites
  rw [hW]
  exact h2

theorem runTool_build {fs : FS} {force : Bool} {stA out : FS × List Report}
    (hA : ensure_dirs fs = Except.ok stA)
    (h2 : stageWrites force stA = Except.ok out) :
    runTool fs force = Except.ok out := by
  unfold runTool
  rw [hA]
  exact h2

theorem runTool_skip_absent {fs : FS} {out : FS × List Report}
    (h : runTool fs false = Except.ok out)
    {pc : Pathc × String} (hpc : pc ∈ FILES) (hnone : fs pc.1 = none) :
    out.1 pc.1 = some (Entry.file pc.2) := by
  rcases runTool_ok h with ⟨stA, stB, stC, hA, hW, hC, hout1, _⟩
  have h1 : stA.1 pc.1 = none := by
    rw [dirsList_frame hA (FILES_not_dirAncestors pc hpc)]
    exact hnone
  have h2 : stB.1 pc.1 = some (Entry.file pc.2) :=
    writeList_none_written hW FILES_keys_nodup hpc (FILES_not_parentDirs pc hpc) h1
  rw [hout1]
  exact create_root_skip_mono hC h2

theorem runTool_skip_preserves {fs : FS} {out : FS × List Report}
    (h : runTool fs false = Except.ok out)
    {pc : Pathc × String} (hpc : pc ∈ FILES) {e : Entry}
    (hsome : fs pc.1 = some e) :
    out.1 pc.1 = some e ∧ Report.skip pc.1 ∈ out.2 := by
  rcases runTool_ok h with ⟨stA, stB, stC, hA, hW, hC, hout1, hout2⟩
  have h1 : stA.1 pc.1 = some e := dirsList_mono hA hsome
  constructor
  · rw [hout1]
    exact create_root_skip_mono hC (writeList_skip_mono hW h1)
  · have hrep : Report.skip pc.1 ∈ stB.2 :=
      writeList_skip_report hW hpc (by simp [h1])
    rw [hout2]
    exact List.mem_append_left _ (List.mem_append_right _ hrep)

theorem runTool_skip_preserves_root {fs : FS} {out : FS × List Report}
    (h : runTool fs false = Except.ok out)
    {e : Entry} (hsome : fs rootPkgPath = some e) :
    out.1 rootPkgPath = some e ∧ Report.skip rootPkgPath ∈ out.2 := by
  rcases runTool_ok h with ⟨stA, stB, stC, hA, hW, hC, hout1, hout2⟩
  have h1 : stB.1 rootPkgPath = some e :=
    writeList_skip_mono hW (dirsList_mono hA hsome)
  constructor
  · rw [hout1]
    exact create_root_skip_mono hC h1
  · rw [hout2]
    exact List.mem_append_right _ (create_root_skip_report hC (by simp [h1]))

theorem runTool_force_canonical {fs : FS} {out : FS × List Report}
    (h : runTool fs true = Except.ok out) :
    (∀ pc ∈ FILES, out.1 pc.1 = some (Entry.file pc.2)) ∧
    out.1 rootPkgPath = some (Entry.file rootPackageJsonContent) := by
  rcases runTool_ok h with ⟨stA, stB, stC, hA, hW, hC, hout1, _⟩
  constructor
  · intro pc hpc
    have h2 : stB.1 pc.1 = some (Entry.file pc.2) :=
      writeList_force_post hW FILES_keys_nodup hpc (FILES_not_parentDirs pc hpc)
    rw [hout1, create_root_frame hC (FILES_keys_ne_root pc hpc)]
    exact h2
  · rw [hout1]
    exact create_root_force_post hC

/-! ### The claims -/

/-- Claim C1: in a completed skip-mode run, every file-table path that held no
object beforehand afterwards holds a regular file with exactly the literal
table content; and on the empty target root the skip-mode run succeeds and
yields every table file with its literal content, every listed directory, and
the root manifest `package.json` with the workspace-glob content. -/
theorem skip_run_writes_absent_files :
    (∀ (fs : FS) (out : FS × List Report), runTool fs false = Except.ok out →
      ∀ pc ∈ FILES, fs pc.1 = none → out.1 pc.1 = some (Entry.file pc.2)) ∧
    (∃ out, runTool emptyFS false = Except.ok out ∧
      (∀ pc ∈ FILES, out.1 pc.1 = some (Entry.file pc.2)) ∧
      (∀ d ∈ DIRS, out.1 d = some Entry.dir) ∧
      out.1 rootPkgPath = some (Entry.file rootPackageJsonContent)) := by
  constructor
  · intro fs out h pc hpc hn
    exact runTool_skip_absent h hpc hn
  · exact ⟨emptyRun, rfl, by decide, by decide, by decide⟩

/-- Witness for C1 at a concrete input: on the empty root, the skip-mode run
materialises `.gitignore` with its literal table content. -/
theorem skip_run_writes_absent_files_witness :
    emptyRun.1 [".gitignore"] = some (Entry.file gitignoreContent) :=
  skip_run_writes_absent_files.1 emptyFS emptyRun rfl
    ([".gitignore"], gitignoreContent) (by decide) rfl

/-- Claim C2: in a completed skip-mode run, every file-table path (and the root
manifest path) that held an object beforehand holds the same object afterwards,
whatever its prior content, and the run reports that path as skipped. -/
theorem skip_run_preserves_existing_files :
    ∀ (fs : FS) (out : FS × List Report), runTool fs false = Except.ok out →
    (∀ pc ∈ FILES, ∀ e : Entry, fs pc.1 = some e →
      out.1 pc.1 = some e ∧ Report.skip pc.1 ∈ out.2) ∧
    (∀ e : Entry, fs rootPkgPath = some e →
      out.1 rootPkgPath = some e ∧ Report.skip rootPkgPath ∈ out.2) := by
  intro fs out h
  exact ⟨fun pc hpc e he => runTool_skip_preserves h hpc he,
    fun e he => runTool_skip_preserves_root h he⟩

/-- Witness for C2 at a concrete input: a user-modified `.gitignore` survives a
skip-mode run byte-for-byte and is reported as skipped. -/
theorem skip_run_preserves_existing_files_witness :
    modifiedRun.1 [".gitignore"] = some (Entry.file ("user content")) ∧
    Report.skip [".gitignore"] ∈ modifiedRun.2 :=
  (skip_run_preserves_existing_files fsModifiedGitignore modifiedRun rfl).1
    ([".gitignore"], gitignoreContent) (by decide) (Entry.file ("user content")) rfl

/-- Claim C3: in a completed force-mode run, every file-table path afterwards
holds exactly the literal table content, and the root manifest holds the
canonical workspace content; this holds whatever occupied those paths before. -/
theorem force_run_replaces_files :
    ∀ (fs : FS) (out : FS × List Report), runTool fs true = Except.ok out →
    (∀ pc ∈ FILES, out.1 pc.1 = some (Entry.file pc.2)) ∧
    out.1 rootPkgPath = some (Entry.file rootPackageJsonContent) := by
  intro fs out h
  exact runTool_force_canonical h

/-- Witness for C3 at a concrete input: a force-mode run replaces a
user-modified `.gitignore` with the literal table content. -/
theorem force_run_replaces_files_witness :
    modifiedForceRun.1 [".gitignore"] = some (Entry.file gitignoreContent) :=
  (force_run_replaces_files fsModifiedGitignore modifiedForceRun rfl).1
    ([".gitignore"], gitignoreContent) (by decide)

/-- Claim C4: a completed no-flag (skip-mode) run is idempotent: running the
tool again with no flags from the resulting state succeeds and leaves the
filesystem state exactly as it was after the first run. -/
theorem noflag_run_idempotent :
    ∀ (fs : FS) (out : FS × List Report), runTool fs false = Except.ok out →
    ∃ r2, runTool out.1 false = Except.ok (out.1, r2) := by
  intro fs out h
  rcases runTool_ok h with ⟨stA, stB, stC, hA, hW, hC, hout1, _⟩
  have hdirs : ∀ d ∈ DIRS, ∀ q ∈ pathAncestors d, out.1 q = some Entry.dir := by
    intro d hd q hq
    rw [hout1]
    exact create_root_skip_mono hC
      (writeList_skip_mono hW (dirsList_post hA hd hq))
  have hfiles : ∀ pc ∈ FILES, (out.1 pc.1).isSome = true := by
    intro pc hpc
    rw [hout1]
    exact create_root_some_mono hC (writeList_isSome_after hW hpc)
  have hroot : (out.1 rootPkgPath).isSome = true := by
    rw [hout1]
    exact create_root_post hC
  rcases @dirsList_all_exists DIRS (out.1, ([] : List Report)) hdirs with ⟨rA2, hA2⟩
  rcases @writeList_all_exists FILES (out.1, ([] : List Report)) hfiles with ⟨rB2, hB2⟩
  have hA2' : ensure_dirs out.1 = Except.ok (out.1, rA2) := hA2
  have hB2' : write_files out.1 false = Except.ok (out.1, rB2) := hB2
  have hC2' : create_root_package_json out.1 false =
      Except.ok (out.1, [Report.skip rootPkgPath]) :=
    create_root_skip_of_some hroot
  have hroot2 : stageRoot false rA2 (out.1, rB2) =
      Except.ok (out.1, rA2 ++ rB2 ++ [Report.skip rootPkgPath]) :=
    @stageRoot_build false rA2 (out.1, rB2) (out.1, [Report.skip rootPkgPath]) hC2'
  have hwrites2 : stageWrites false (out.1, rA2) =
      Except.ok (out.1, rA2 ++ rB2 ++ [Report.skip rootPkgPath]) :=
    stageWrites_build hB2' hroot2
  exact ⟨rA2 ++ rB2 ++ [Report.skip rootPkgPath], runTool_build hA2' hwrites2⟩

/-- Witness for C4 at a concrete input: re-running after a first run on the
empty root succeeds and changes nothing. -/
theorem noflag_run_idempotent_witness :
    ∃ r2, runTool emptyRun.1 false = Except.ok (emptyRun.1, r2) :=
  noflag_run_idempotent emptyFS emptyRun rfl

/-- Counterexample for C5 as stated: the convergence is not unconditional in
the initial state.  From a root holding a directory at `.gitignore`, the
skip-mode run succeeds, but the subsequent force-mode run aborts with an
uncaught error (IsADirectoryError from `write_text` on the directory), so no
state with the literal table content at every path results. -/
theorem skip_then_force_not_always_canonical :
    runTool fsDirAtGitignore false = Except.ok dirAtGitignoreRun ∧
    runTool dirAtGitignoreRun.1 true = Except.error () := by
  constructor
  · rfl
  · rfl

/-- Claim C5 (amended): a skip-mode run followed by a force-mode run yields,
for every file in the table and for the root manifest, exactly the literal
table content — provided the force-mode run completes (it aborts when a
directory occupies a table path). -/
theorem skip_then_force_canonical_when_ok :
    ∀ (fs : FS) (mid out : FS × List Report),
    runTool fs false = Except.ok mid → runTool mid.1 true = Except.ok out →
    (∀ pc ∈ FILES, out.1 pc.1 = some (Entry.file pc.2)) ∧
    out.1 rootPkgPath = some (Entry.file rootPackageJsonContent) := by
  intro fs mid out _ h2
  exact runTool_force_canonical h2

/-- Witness for the amended C5 at a concrete input: skip then force on the
empty root yields the canonical content everywhere. -/
theorem skip_then_force_canonical_when_ok_witness :
    (∀ pc ∈ FILES, emptyRunForce.1 pc.1 = some (Entry.file pc.2)) ∧
    emptyRunForce.1 rootPkgPath = some (Entry.file rootPackageJsonContent) :=
  skip_then_force_canonical_when_ok emptyFS emptyRun emptyRunForce rfl rfl

/-- Counterexample for C6 as stated: the guarantee is not independent of the
prior filesystem state.  With a regular file at `apps`, `ensure_dirs` raises
(FileExistsError from `mkdir`), and `apps` is not a directory. -/
theorem ensure_dirs_can_fail :
    ensure_dirs fsFileAtApps = Except.error () ∧
    fsFileAtApps ["apps"] ≠ some Entry.dir := by
  constructor
  · rfl
  · decide

/-- Claim C6 (amended): `ensure_dirs` creates each listed directory and its
missing ancestors and raises no error when they already exist: whenever it
completes, every listed directory exists afterwards, and when every listed
directory (with its ancestors) already exists it completes without touching
the filesystem.  It can abort when a regular file occupies a listed path. -/
theorem ensure_dirs_post_when_ok :
    ∀ (fs : FS) (st' : FS × List Report),
    (ensure_dirs fs = Except.ok st' → ∀ d ∈ DIRS, st'.1 d = some Entry.dir) ∧
    ((∀ d ∈ DIRS, ∀ q ∈ pathAncestors d, fs q = some Entry.dir) →
      ∃ r, ensure_dirs fs = Except.ok (fs, r)) := by
  intro fs st'
  constructor
  · intro h d hd
    exact dirsList_post h hd (self_mem_pathAncestors (DIRS_ne_nil d hd))
  · intro hall
    exact @dirsList_all_exists DIRS (fs, ([] : List Report)) hall

/-- Witness for the amended C6 at a concrete input: after `ensure_dirs` on the
empty root, `apps` is a directory. -/
theorem ensure_dirs_post_when_ok_witness :
    emptyEnsure.1 ["apps"] = some Entry.dir :=
  (ensure_dirs_post_when_ok emptyFS emptyEnsure).1 rfl ["apps"] (by decide)

/-- Claim C7: the write step itself guarantees the parent directory of each
file it writes: after the parent-creation sub-step succeeds, the parent is a
directory and the write goes through (unless a directory occupies the file
path itself); and independently of `ensure_dirs`, `write_files` alone on the
empty root succeeds and writes every table file. -/
theorem write_step_ensures_parent_dir :
    (∀ (fs fs1 : FS) (pc : Pathc × String),
      mkdirParents fs pc.1.dropLast = Except.ok fs1 →
      isDirB fs1 pc.1.dropLast = true ∧
      (fs1 pc.1 ≠ some Entry.dir →
        write_text fs1 pc.1 pc.2 =
          Except.ok (updateFS fs1 pc.1 (Entry.file pc.2)))) ∧
    (∃ st', write_files emptyFS false = Except.ok st' ∧
      ∀ pc ∈ FILES, st'.1 pc.1 = some (Entry.file pc.2)) := by
  constructor
  · intro fs fs1 pc hm
    have hd := mkdirParents_isDir hm
    exact ⟨hd, fun hnot => write_text_of_isDir hnot hd⟩
  · exact ⟨emptyWriteFiles, rfl, by decide⟩

/-- Witness for C7 at a concrete input: creating the parents of
`apps/README.md` in the empty root leaves `apps` a directory. -/
theorem write_step_ensures_parent_dir_witness :
    isDirB mkdirAppsResult ["apps"] = true :=
  (write_step_ensures_parent_dir.1 emptyFS mkdirAppsResult
    (["apps", "README.md"], appsReadmeContent) rfl).1

/-- Claim C8: `detect_repo_root` returns the parent of the resolved script
path, except that when the parent directory is named `scripts` it returns the
grandparent; it is a total function with no error conditions. -/
theorem detect_repo_root_spec :
    ∀ p : List String,
    (p.dropLast.getLast? = some ("scripts") →
      detect_repo_root p = p.dropLast.dropLast) ∧
    (p.dropLast.getLast? ≠ some ("scripts") →
      detect_repo_root p = p.dropLast) := by
  intro p
  constructor
  · intro h
    unfold detect_repo_root
    rw [if_pos h]
  · intro h
    unfold detect_repo_root
    rw [if_neg h]

/-- Witness for C8 at a concrete input: a script at
`repo/scripts/generate-monorepo.py` resolves the root to `repo`. -/
theorem detect_repo_root_spec_witness :
    detect_repo_root ["repo", "scripts", "generate-monorepo.py"] = ["repo"] :=
  (detect_repo_root_spec ["repo", "scripts", "generate-monorepo.py"]).1 (by decide)

/-- Claim C9: a completed run, in either mode, changes only paths in the
directory set, file-table keys, their ancestors, or the root manifest path,
and never deletes an existing object anywhere. -/
theorem run_frame_condition :
    ∀ (fs : FS) (force : Bool) (out : FS × List Report),
    runTool fs force = Except.ok out → ∀ p : Pathc,
    (out.1 p ≠ fs p → touchable p) ∧
    (∀ e : Entry, fs p = some e → (out.1 p).isSome = true) := by
  intro fs force out h p
  rcases runTool_ok h with ⟨stA, stB, stC, hA, hW, hC, hout1, _⟩
  constructor
  · intro hne
    by_contra htouch
    unfold touchable at htouch
    push_neg at htouch
    rcases htouch with ⟨h1, h2, h3, h4⟩
    apply hne
    rw [hout1, create_root_frame hC h4, writeList_frame hW h2 h3,
      dirsList_frame hA h1]
  · intro e he
    rw [hout1]
    exact create_root_some_mono hC
      (writeList_some_mono hW (by simp [dirsList_mono hA he]))

/-- Witness for C9 at a concrete input: the path `apps`, changed by a run on
the empty root, belongs to the touchable set. -/
theorem run_frame_condition_witness : touchable ["apps"] :=
  (run_frame_condition emptyFS false emptyRun rfl ["apps"]).1 (by decide)

/-- Claim C10: the skip decision tests existence of any filesystem object, not
specifically a regular file: a directory occupying a file-table path before a
skip-mode run is left unchanged and reported as skipped, and such a run
completes without error. -/
theorem skip_mode_skips_non_file_objects :
    (∀ (fs : FS) (out : FS × List Report), runTool fs false = Except.ok out →
      ∀ pc ∈ FILES, fs pc.1 = some Entry.dir →
        out.1 pc.1 = some Entry.dir ∧ Report.skip pc.1 ∈ out.2) ∧
    (runTool fsDirAtGitignore false = Except.ok dirAtGitignoreRun ∧
      dirAtGitignoreRun.1 [".gitignore"] = some Entry.dir ∧
      Report.skip [".gitignore"] ∈ dirAtGitignoreRun.2) := by
  constructor
  · intro fs out h pc hpc hdir
    exact runTool_skip_preserves h hpc hdir
  · exact ⟨rfl, by rfl, by decide⟩

/-- Witness for C10 at a concrete input: the directory at `.gitignore`
survives the skip-mode run and is reported as skipped. -/
theorem skip_mode_skips_non_file_objects_witness :
    dirAtGitignoreRun.1 [".gitignore"] = some Entry.dir ∧
    Report.skip [".gitignore"] ∈ dirAtGitignoreRun.2 :=
  skip_mode_skips_non_file_objects.1 fsDirAtGitignore dirAtGitignoreRun rfl
    ([".gitignore"], gitignoreContent) (by decide) rfl

end Monorepo
